import Mathlib

/-!
Verification of the `code-file-wrapper` repository.

This file shallowly embeds the core of the program — the directory walk
and tagged serialization of `src/file_ops.rs`, the append operation, the
two JSON-backed configuration stores of `src/filetypes.rs` and
`src/presets.rs`, and the CLI entry branch of `src/main.rs` — and proves
or refutes the frozen claims about it.

Modelling conventions:
* An OS file name (`OsStr`) is either a name that decodes to UTF-8 or one
  that does not; in the latter case we record what the code can still
  observe of it: the result of `path.extension().and_then(to_str)` (the
  extension bytes may decode even when the whole name does not) and
  whether its first byte is the hidden-file marker.
* A directory listing (`read_dir` plus the per-entry results of the
  iterator) is a finite sequence of entries that may end in an I/O error;
  the Rust loop stops at the first `Err` item, so an error can only be
  observed as a terminator.
* `Path::to_str` of a path built by repeated `join` renders the
  components joined by the platform's main separator; the separator is an
  explicit parameter `sep` of the embedding (`"\\"` on Windows, `"/"` on
  Unix-likes).
* Writes to the already-created output file are modelled as infallible;
  output-file creation/write failures are outside every claim.
* `serde_json` text is modelled at the JSON-value level: a backing file
  either holds text that parses to a JSON value or text that does not.
-/

/-- An OS-level file or directory name.  `utf8 s` is a name whose bytes
decode to the string `s`.  `raw ext startsDot` is a name whose bytes do
not decode; `ext` is what `Path::extension().and_then(to_str)` yields for
it and `startsDot` records whether its first byte is the `.` marker. -/
inductive OsName where
  | utf8 (s : String)
  | raw (ext : Option String) (startsDot : Bool)
deriving DecidableEq

/-- The characters after the last `.` of a list of characters, if any dot
is present. -/
def extTail : List Char → Option (List Char)
  | [] => none
  | c :: cs =>
    match extTail cs with
    | some e => some e
    | none => if c = '.' then some cs else none

/-- `Path::extension` semantics on a decoded file name: the portion after
the last `.`, where a dot in leading position does not count (a name such
as `.gitignore` has no extension). -/
def rustExtension (name : String) : Option String :=
  match name.toList with
  | [] => none
  | _ :: rest => (extTail rest).map fun cs => String.mk cs

/-- `OsStr::to_str`: the decoded form of a name, when its bytes decode. -/
def OsName.toStr : OsName → Option String
  | .utf8 s => some s
  | .raw _ _ => none

/-- `path.extension().and_then(|e| e.to_str())` for an entry name. -/
def OsName.extensionToStr : OsName → Option String
  | .utf8 s => rustExtension s
  | .raw e _ => e

/-- Embedding of `is_human_readable` (src/file_ops.rs lines 182-187):
if the extension decodes, membership in `valid_exts`; otherwise false. -/
def is_human_readable (n : OsName) (valid_exts : List String) : Bool :=
  match OsName.extensionToStr n with
  | some ext => valid_exts.contains ext
  | none => false

/-- The inclusion test actually applied at the call sites
(src/file_ops.rs lines 104 and 322): `path.is_file() && is_human_readable`. -/
def effectiveFilter (isFile : Bool) (n : OsName) (valid_exts : List String) : Bool :=
  isFile && is_human_readable n valid_exts

/-- `str::to_lowercase`, modelled by per-character folding.
`Char.toLower` folds exactly the ASCII range, so this agrees with Rust's
Unicode case folding precisely on strings whose characters are ASCII;
every theorem whose truth depends on the folding (claim C1) is
scoped to such names via `asciiName`, and every concrete name in this
development is ASCII. -/
def toLowerStr (s : String) : String :=
  String.mk (s.data.map Char.toLower)

/-- Whether a name lies in the domain on which `toLowerStr` is a faithful
model of `str::to_lowercase`: its decoded form, if any, is pure ASCII.
A name that does not decode is never case-folded by the code, so it is
unrestricted. -/
def asciiName : OsName → Bool
  | .utf8 s => s.data.all fun c => c.toNat < 128
  | .raw _ _ => true

/-- `str::starts_with('.')`: whether the first character is the
hidden-file marker. -/
def startsWithDot (s : String) : Bool :=
  match s.data with
  | [] => false
  | c :: _ => c == '.'

/-- The skip test of src/file_ops.rs lines 315-319: a directory is skipped
iff its name decodes and the lowercased name is a member of
`ignored_folders` or starts with the hidden marker.  When the name does
not decode the `if let` fails and the directory is traversed. -/
def skipDir (ignored : List String) (n : OsName) : Bool :=
  match OsName.toStr n with
  | some s =>
    let folder_name := toLowerStr s
    ignored.contains folder_name || startsWithDot folder_name
  | none => false

/-- Components joined by the platform separator: the rendering that
`Path::to_str` gives a path built from these components by `join`. -/
def joinSep (sep : String) : List String → String
  | [] => ""
  | [x] => x
  | x :: xs => x ++ sep ++ joinSep sep xs

/-- `path.strip_prefix(root_dir)` followed by `.to_str()`: the root-relative
path of a file with name `n` under intermediate directories `pre`, rendered
with the platform separator; `none` when any component fails to decode. -/
def relStr (sep : String) (pre : List OsName) (n : OsName) : Option String :=
  (List.mapM OsName.toStr (pre ++ [n])).map (joinSep sep)

/-- The three `writeln!` calls of the per-file success path
(src/file_ops.rs lines 109-111 and 327-329). -/
def tagBlock (rel : String) (contents : String) : String :=
  "<" ++ rel ++ ">\n" ++ contents ++ "\n" ++ "</" ++ rel ++ ">\n\n"

/-- What the run has produced so far: the text written to the output file
and the warnings printed to stderr (each identifying the skipped path, as
`eprintln!` does, together with the error message). -/
structure WalkState where
  out : String
  warn : List (List OsName × String)
deriving DecidableEq

/-- The per-file body shared by both branches of `write_folder_tags`
(src/file_ops.rs lines 104-119 and 322-336): filter by extension, strip
the prefix and decode the relative path, then read the file; a read
failure appends a warning, a non-decodable relative path is skipped
silently. -/
def fileStep (sep : String) (valid : List String) (pre : List OsName)
    (n : OsName) (c : Except String String) (s : WalkState) : WalkState :=
  if is_human_readable n valid then
    match relStr sep pre n with
    | some rel_str =>
      match c with
      | .ok contents => { s with out := s.out ++ tagBlock rel_str contents }
      | .error e => { s with warn := s.warn ++ [(pre ++ [n], e)] }
    | none => s
  else s

/-- Decidable equality for `Except`, needed to decide facts about
concrete listings. -/
def exceptDecEq {ε α : Type} [DecidableEq ε] [DecidableEq α] :
    DecidableEq (Except ε α)
  | .error a, .error b =>
    if h : a = b then .isTrue (by rw [h]) else .isFalse (by intro hc; cases hc; exact h rfl)
  | .error _, .ok _ => .isFalse (by intro hc; cases hc)
  | .ok _, .error _ => .isFalse (by intro hc; cases hc)
  | .ok a, .ok b =>
    if h : a = b then .isTrue (by rw [h]) else .isFalse (by intro hc; cases hc; exact h rfl)

instance {ε α : Type} [DecidableEq ε] [DecidableEq α] : DecidableEq (Except ε α) :=
  exceptDecEq

/-- A directory listing as the walker observes it: entries in iterator
order, terminated either normally or by the first failing item
(`read_dir(dir)?` failing, or an `entry?` failing mid-iteration).  A
`consFile` entry carries the later result of `read_to_string` on it; a
`consDir` entry carries the listing its own `read_dir` would produce; a
`consOther` entry is one for which both `is_dir` and `is_file` are false. -/
inductive Listing where
  | fail (msg : String)
  | nil
  | consFile (name : OsName) (content : Except String String) (rest : Listing)
  | consDir (name : OsName) (sub : Listing) (rest : Listing)
  | consOther (name : OsName) (rest : Listing)
deriving DecidableEq

/-- Embedding of `write_folder_tags_recursive` (src/file_ops.rs lines
303-340).  `pre` is the chain of directory names from `root_dir` to the
current directory.  Directory entries are skipped via `skipDir` or
recursed into with `?`-propagation of errors; file entries go through
`fileStep`; listing failures abort the whole walk. -/
def walkListing (sep : String) (valid ignored : List String) :
    List OsName → Listing → WalkState → Except String WalkState
  | _, .fail m, _ => .error m
  | _, .nil, s => .ok s
  | pre, .consDir n sub rest, s =>
    if skipDir ignored n then walkListing sep valid ignored pre rest s
    else
      match walkListing sep valid ignored (pre ++ [n]) sub s with
      | .error m => .error m
      | .ok s2 => walkListing sep valid ignored pre rest s2
  | pre, .consFile n c rest, s =>
    walkListing sep valid ignored pre rest (fileStep sep valid pre n c s)
  | pre, .consOther _ rest, s => walkListing sep valid ignored pre rest s

/-- Embedding of the non-recursive branch of `write_folder_tags`
(src/file_ops.rs lines 100-121): only direct children, only file entries,
same per-file body with an empty prefix. -/
def nonRecursiveLoop (sep : String) (valid : List String) :
    Listing → WalkState → Except String WalkState
  | .fail m, _ => .error m
  | .nil, s => .ok s
  | .consFile n c rest, s => nonRecursiveLoop sep valid rest (fileStep sep valid [] n c s)
  | .consDir _ _ rest, s => nonRecursiveLoop sep valid rest s
  | .consOther _ rest, s => nonRecursiveLoop sep valid rest s

/-- The fixed instructional footer of src/file_ops.rs lines 124-130. -/
def footer : String :=
  "* The above is the current state of my project.\n" ++
  "* Each node above is an XML-wrapped code snippet using relative Windows-style file path tags.\n" ++
  "* Provide context above and below code changes to be explicit on where any change should occur.\n" ++
  "* Under text under [Additional Commands] should be read very carefully and followed absolutely\n"

/-- Embedding of `write_folder_tags` (src/file_ops.rs lines 89-133): the
output file starts truncated, one of the two traversals runs, and on
success the footer is appended.  The result carries the final file text
and the stderr warnings; an error is the propagated traversal failure. -/
def write_folder_tags (sep : String) (valid : List String) (recursive : Bool)
    (ignored : List String) (root : Listing) :
    Except String (String × List (List OsName × String)) :=
  let res :=
    if recursive then walkListing sep valid ignored [] root ⟨"", []⟩
    else nonRecursiveLoop sep valid root ⟨"", []⟩
  match res with
  | .error m => .error m
  | .ok s => .ok (s.out ++ footer, s.warn)

/-- Whether an `Except` result is the error case. -/
def isErr {α : Type} : Except String α → Bool
  | .error _ => true
  | .ok _ => false

/-- Whether the recursive walk would meet a listing failure: failures
inside skipped subtrees are never observed. -/
def listingFail (ignored : List String) : Listing → Bool
  | .fail _ => true
  | .nil => false
  | .consFile _ _ rest => listingFail ignored rest
  | .consDir n sub rest =>
    (if skipDir ignored n then false else listingFail ignored sub) || listingFail ignored rest
  | .consOther _ rest => listingFail ignored rest

/-- Whether the non-recursive loop would meet a listing failure. -/
def nonRecursiveFail : Listing → Bool
  | .fail _ => true
  | .nil => false
  | .consFile _ _ rest => nonRecursiveFail rest
  | .consDir _ _ rest => nonRecursiveFail rest
  | .consOther _ rest => nonRecursiveFail rest

/-- Embedding of `append_additional_commands` (src/file_ops.rs lines
236-246): the file is opened in append mode and two `writeln!` calls add
a blank line, the section label, the commands and a trailing blank line.
The function maps the previous file text to the new file text. -/
def append_additional_commands (fileContents : String) (additional_commands : String) : String :=
  fileContents ++ "\n[Additional Commands]\n" ++ additional_commands ++ "\n\n"

/-- The text one call of `append_additional_commands` adds to the file. -/
def acBlock (additional_commands : String) : String :=
  "\n[Additional Commands]\n" ++ additional_commands ++ "\n\n"

/-- Occurrence count of a character pattern in a character list. -/
def countOccs (pat : List Char) : List Char → Nat
  | [] => 0
  | c :: cs => (if List.isPrefixOf pat (c :: cs) then 1 else 0) + countOccs pat cs

/-- Number of occurrences of the labelled section delimiter
(newline, the literal label line, newline) in a text. -/
def sectionCount (s : String) : Nat :=
  countOccs ("\n[Additional Commands]\n").data s.data

/-- A JSON value, the level at which the `serde_json` text in the two
backing files is modelled. -/
inductive JsonVal where
  | null
  | bool (b : Bool)
  | num (n : Int)
  | str (s : String)
  | arr (items : List JsonVal)
  | obj (fields : List (String × JsonVal))

/-- The contents of a backing file: either text that parses as JSON or
text that does not (including an unreadable file, which
`read_to_string(..).unwrap_or_default()` turns into the empty string). -/
inductive FileData where
  | json (v : JsonVal)
  | notJson (raw : String)

/-- `FileTypeGroup` of src/filetypes.rs lines 7-11. -/
structure FileTypeGroup where
  name : String
  extensions : List String
deriving DecidableEq

/-- `PresetCommand` of src/presets.rs lines 62-66. -/
structure PresetCommand where
  name : String
  text : String
deriving DecidableEq

/-- First field with the given key in a JSON object, as serde reads a
struct field. -/
def lookupField (fields : List (String × JsonVal)) (key : String) : Option JsonVal :=
  (fields.find? fun p => p.1 == key).map fun p => p.2

/-- Decode a JSON string value. -/
def decodeStr : JsonVal → Option String
  | .str s => some s
  | _ => none

/-- Sequential decoding of a list, stopping at the first failure, as
serde deserializes a `Vec`. -/
def mapOpt {α β : Type} (f : α → Option β) : List α → Option (List β)
  | [] => some []
  | x :: xs => do
    let y ← f x
    let ys ← mapOpt f xs
    pure (y :: ys)

/-- Decode a JSON array of strings. -/
def decodeStrList : JsonVal → Option (List String)
  | .arr items => mapOpt decodeStr items
  | _ => none

/-- serde deserialization of one `FileTypeGroup` from a JSON value. -/
def decodeGroup (v : JsonVal) : Option FileTypeGroup :=
  match v with
  | .obj fields => do
    let nm ← lookupField fields "name" >>= decodeStr
    let exts ← lookupField fields "extensions" >>= decodeStrList
    pure ⟨nm, exts⟩
  | _ => none

/-- serde deserialization of `Vec<FileTypeGroup>` from a JSON value. -/
def decodeGroups : JsonVal → Option (List FileTypeGroup)
  | .arr items => mapOpt decodeGroup items
  | _ => none

/-- serde serialization of one `FileTypeGroup` to a JSON value. -/
def encodeGroup (g : FileTypeGroup) : JsonVal :=
  .obj [("name", .str g.name), ("extensions", .arr (g.extensions.map JsonVal.str))]

/-- serde serialization of `Vec<FileTypeGroup>` to a JSON value. -/
def encodeGroups (groups : List FileTypeGroup) : JsonVal :=
  .arr (groups.map encodeGroup)

/-- serde deserialization of one `PresetCommand` from a JSON value. -/
def decodePreset (v : JsonVal) : Option PresetCommand :=
  match v with
  | .obj fields => do
    let nm ← lookupField fields "name" >>= decodeStr
    let tx ← lookupField fields "text" >>= decodeStr
    pure ⟨nm, tx⟩
  | _ => none

/-- serde deserialization of `Vec<PresetCommand>` from a JSON value. -/
def decodePresets : JsonVal → Option (List PresetCommand)
  | .arr items => mapOpt decodePreset items
  | _ => none

/-- serde serialization of one `PresetCommand` to a JSON value. -/
def encodePreset (p : PresetCommand) : JsonVal :=
  .obj [("name", .str p.name), ("text", .str p.text)]

/-- serde serialization of `Vec<PresetCommand>` to a JSON value. -/
def encodePresets (presets : List PresetCommand) : JsonVal :=
  .arr (presets.map encodePreset)

/-- Embedding of `save_filetypes` (src/filetypes.rs lines 139-142): the
list is serialized and the backing file overwritten in full; the result
is the new state of the backing file. -/
def save_filetypes (groups : List FileTypeGroup) : Option FileData :=
  some (.json (encodeGroups groups))

/-- The hard-coded default groups of src/filetypes.rs lines 67-80. -/
def defaultFiletypes : List FileTypeGroup :=
  [⟨"Rust", ["rs"]⟩, ⟨"JSON", ["json"]⟩, ⟨"Lua", ["lua"]⟩]

/-- Embedding of `get_filetypes` (src/filetypes.rs lines 62-84), as a
function from the state of the backing file (`none` when `filetypes.json`
does not exist) to the returned list and the new state of the file. -/
def get_filetypes : Option FileData → List FileTypeGroup × Option FileData
  | some (.json v) => ((decodeGroups v).getD [], some (.json v))
  | some (.notJson raw) => ([], some (.notJson raw))
  | none => (defaultFiletypes, save_filetypes defaultFiletypes)

/-- Embedding of `save_presets` (src/presets.rs lines 191-194). -/
def save_presets (presets : List PresetCommand) : Option FileData :=
  some (.json (encodePresets presets))

/-- The hard-coded default presets of src/presets.rs lines 117-140. -/
def defaultPresets : List PresetCommand :=
  [⟨"Create Function Documentation", "for each function, create very detailed documentation for that function, only respond with a single function and even still only respond with the documentation  and not the contents of the function itself. After providing the documentation, prompt for the next function.\n\nprovide information such as panics, parameters, all the interesting stuff about that function\n\nwrite the documentation as code blocks that appear above the function, similar to how other proper documentated rust functions are with code blocks\n\nprompt with the name of the function, do not respond with the code body of the function, only the documentation\nstart with the main function\n\nuse \"///\" for the function blocks"⟩,
   ⟨"Create Readme", "I want you to update the readme.md file. I want this readme to be the most fancy readme possible with as many fancy emojis, information, examples, and other interesting things.\nany sort of flowcharts, sequence diagrams, or other things that would look really good on a public facing github page are welcome\n"⟩,
   ⟨"Button 3", "tbd"⟩,
   ⟨"Button 4", "tbd"⟩,
   ⟨"Button 5", "tbd"⟩]

/-- Embedding of `get_presets` (src/presets.rs lines 112-146). -/
def get_presets : Option FileData → List PresetCommand × Option FileData
  | some (.json v) => ((decodePresets v).getD [], some (.json v))
  | some (.notJson raw) => ([], some (.notJson raw))
  | none => (defaultPresets, save_presets defaultPresets)

/-- Claim-side membership test: a name is in the ignored set under
case-insensitive comparison. -/
def caseInsensitiveMember (name : String) (ignored : List String) : Bool :=
  ignored.any fun i => toLowerStr i == toLowerStr name

/-- The observable outcome of a `main` invocation: the process exit code
and whether `tags_output.txt` was created or modified. -/
structure MainOutcome where
  exitCode : Nat
  artifactTouched : Bool
deriving DecidableEq

/-- Embedding of the path-argument branch of `main` (src/main.rs lines
80-103): if the supplied folder does not exist the process exits with
status 1 before any call that touches `tags_output.txt`; otherwise
`write_folder_tags` runs (creating the artifact), a failing serialization
exits with 1, and an `append_additional_commands` failure is only printed
while the process still exits with 0. -/
def mainPathBranch (pathExists : Bool)
    (wft : Except String (String × List (List OsName × String)))
    (app : Except String Unit) : MainOutcome :=
  if pathExists then
    match wft with
    | .error _ => ⟨1, true⟩
    | .ok _ =>
      match app with
      | .error _ => ⟨0, true⟩
      | .ok _ => ⟨0, true⟩
  else ⟨1, false⟩

/-!
## Theorems about the claims
-/

set_option maxRecDepth 10000 in
/-- Counterexample to claim C1 as stated: with `ignored_folder_names =
["Target"]`, the subdirectory `Target` is a member of the ignored set
under case-insensitive comparison (indeed under exact comparison), yet
the recursive serialization still emits a tag pair for the file
`Target\a.rs` under it, because the code lowercases only the folder name
and compares it to the un-lowercased list entries. -/
theorem claim1_counterexample :
    caseInsensitiveMember "Target" ["Target"] = true ∧
    write_folder_tags "\\" ["rs"] true ["Target"]
      (.consDir (.utf8 "Target") (.consFile (.utf8 "a.rs") (.ok "x") .nil) .nil) =
      .ok (tagBlock "Target\\a.rs" "x" ++ footer, []) ∧
    ((tagBlock "Target\\a.rs" "x" ++ footer) == footer) = false :=
  ⟨by decide, by decide, by decide⟩

/-- Claim C1 as amended, both directions, for names on which the
embedding's case folding is faithful (ASCII, per `asciiName`): during
recursive serialization a subdirectory's subtree is skipped — the walk
continues exactly as if the subtree were absent — if and only if its base
name decodes to UTF-8 and either its lowercased base name is, by exact
string comparison, a member of `ignored_folder_names` or it begins with
the hidden-file marker.  In every other case, in particular whenever the
base name fails to decode (the hypothesis of the second conjunct is then
vacuous), the walk descends into the subtree and serializes it like any
other directory. -/
theorem claim1_amended (sep : String) (valid ignored : List String)
    (pre : List OsName) (n : OsName) (sub rest : Listing) (s : WalkState)
    (_hascii : asciiName n = true) :
    ((∃ ns, OsName.toStr n = some ns ∧
        (ignored.contains (toLowerStr ns) || startsWithDot (toLowerStr ns)) = true) →
      walkListing sep valid ignored pre (.consDir n sub rest) s =
        walkListing sep valid ignored pre rest s) ∧
    ((∀ ns, OsName.toStr n = some ns →
        (ignored.contains (toLowerStr ns) || startsWithDot (toLowerStr ns)) = false) →
      walkListing sep valid ignored pre (.consDir n sub rest) s =
        match walkListing sep valid ignored (pre ++ [n]) sub s with
        | .error m => .error m
        | .ok s2 => walkListing sep valid ignored pre rest s2) := by
  constructor
  · rintro ⟨ns, hdec, hskip⟩
    have h : skipDir ignored n = true := by
      simp only [skipDir, hdec]
      exact hskip
    simp [walkListing, h]
  · intro hno
    have h : skipDir ignored n = false := by
      cases hn : OsName.toStr n with
      | none => simp [skipDir, hn]
      | some ns =>
        simp only [skipDir, hn]
        exact hno ns hn
    simp [walkListing, h]

/-- Witness for the amended claim C1 at concrete trees: a `Target`
directory is skipped when the ignored list holds the lowercase form,
descended into when the ignored list holds the mixed-case form, and
descended into when its name does not decode to UTF-8. -/
theorem claim1_amended_witness :
    (walkListing "\\" ["rs"] ["target"] []
        (.consDir (.utf8 "Target") (.consFile (.utf8 "b.rs") (.ok "y") .nil) .nil) ⟨"", []⟩ =
      walkListing "\\" ["rs"] ["target"] [] .nil ⟨"", []⟩) ∧
    (walkListing "\\" ["rs"] ["Target"] []
        (.consDir (.utf8 "Target") (.consFile (.utf8 "b.rs") (.ok "y") .nil) .nil) ⟨"", []⟩ =
      match walkListing "\\" ["rs"] ["Target"] [OsName.utf8 "Target"]
          (.consFile (.utf8 "b.rs") (.ok "y") .nil) ⟨"", []⟩ with
      | .error m => .error m
      | .ok s2 => walkListing "\\" ["rs"] ["Target"] [] .nil s2) ∧
    (walkListing "\\" ["rs"] [] []
        (.consDir (.raw none true) (.consFile (.utf8 "b.rs") (.ok "y") .nil) .nil) ⟨"", []⟩ =
      match walkListing "\\" ["rs"] [] [OsName.raw none true]
          (.consFile (.utf8 "b.rs") (.ok "y") .nil) ⟨"", []⟩ with
      | .error m => .error m
      | .ok s2 => walkListing "\\" ["rs"] [] [] .nil s2) :=
  ⟨(claim1_amended "\\" ["rs"] ["target"] [] (.utf8 "Target")
      (.consFile (.utf8 "b.rs") (.ok "y") .nil) .nil ⟨"", []⟩ (by decide)).1
      ⟨"Target", rfl, by decide⟩,
   (claim1_amended "\\" ["rs"] ["Target"] [] (.utf8 "Target")
      (.consFile (.utf8 "b.rs") (.ok "y") .nil) .nil ⟨"", []⟩ (by decide)).2
      (by
        intro ns h
        simp only [OsName.toStr, Option.some.injEq] at h
        subst h
        decide),
   (claim1_amended "\\" ["rs"] [] [] (.raw none true)
      (.consFile (.utf8 "b.rs") (.ok "y") .nil) .nil ⟨"", []⟩ (by decide)).2
      (by
        intro ns h
        simp [OsName.toStr] at h)⟩

set_option maxRecDepth 10000 in
/-- Claim C2, evaluated at the failing input: the same tree `sub/a.rs`
serialized on a host whose separator is `/` produces a tag `<sub/a.rs>`,
not the `<sub\a.rs>` the claim (and the code's own doc comments) promise
for every platform; the two outputs differ, so tag text is not stable
across platforms. -/
theorem claim2_eval :
    write_folder_tags "/" ["rs"] true []
      (.consDir (.utf8 "sub") (.consFile (.utf8 "a.rs") (.ok "x") .nil) .nil) =
      .ok (tagBlock "sub/a.rs" "x" ++ footer, []) ∧
    write_folder_tags "\\" ["rs"] true []
      (.consDir (.utf8 "sub") (.consFile (.utf8 "a.rs") (.ok "x") .nil) .nil) =
      .ok (tagBlock "sub\\a.rs" "x" ++ footer, []) ∧
    (tagBlock "sub/a.rs" "x" == tagBlock "sub\\a.rs" "x") = false :=
  ⟨by decide, by decide, by decide⟩

/-- A listing consisting only of regular files with the given decoded
names and successfully-read UTF-8 contents. -/
def listingOfFiles : List (String × String) → Listing
  | [] => .nil
  | p :: rest => .consFile (.utf8 p.1) (.ok p.2) (listingOfFiles rest)

/-- Concatenation of a list of strings. -/
def strJoin : List String → String
  | [] => ""
  | x :: xs => x ++ strJoin xs

/-- The non-recursive loop over a listing of includable, readable files
appends exactly one tag block per file, in order, and warns about
nothing. -/
theorem nonRecursiveLoop_files (sep : String) (valid : List String) :
    ∀ (files : List (String × String)) (s : WalkState),
      (∀ p ∈ files, is_human_readable (OsName.utf8 p.1) valid = true) →
      nonRecursiveLoop sep valid (listingOfFiles files) s =
        .ok ⟨s.out ++ strJoin (files.map fun p => tagBlock p.1 p.2), s.warn⟩
  | [], s, _ => by
    simp [listingOfFiles, nonRecursiveLoop, strJoin, String.append_empty]
  | p :: rest, s, h => by
    have hp : is_human_readable (OsName.utf8 p.1) valid = true :=
      h p (List.mem_cons_self p rest)
    have hrest : ∀ q ∈ rest, is_human_readable (OsName.utf8 q.1) valid = true :=
      fun q hq => h q (List.mem_cons_of_mem p hq)
    have hrel : relStr sep [] (OsName.utf8 p.1) = some p.1 := rfl
    simp only [listingOfFiles, nonRecursiveLoop]
    have hstep : fileStep sep valid [] (OsName.utf8 p.1) (Except.ok p.2) s =
        ⟨s.out ++ tagBlock p.1 p.2, s.warn⟩ := by
      simp [fileStep, hp, hrel]
    rw [hstep]
    rw [nonRecursiveLoop_files sep valid rest ⟨s.out ++ tagBlock p.1 p.2, s.warn⟩ hrest]
    simp [strJoin, String.append_assoc]

/-- Claim C3: for a directory containing only regular files whose
extensions are in the allow-list (and which read successfully as UTF-8,
the claim's implicit domain), non-recursive serialization emits exactly
one tag pair per file with the file's exact content between the tags,
followed by the footer, and succeeds with no warnings. -/
theorem claim3 (sep : String) (valid ignored : List String)
    (files : List (String × String))
    (h : ∀ p ∈ files, is_human_readable (OsName.utf8 p.1) valid = true) :
    write_folder_tags sep valid false ignored (listingOfFiles files) =
      .ok (strJoin (files.map fun p => tagBlock p.1 p.2) ++ footer, []) := by
  simp [write_folder_tags, nonRecursiveLoop_files sep valid files ⟨"", []⟩ h]

/-- Witness for claim C3 at a concrete two-file directory. -/
theorem claim3_witness :
    write_folder_tags "\\" ["rs", "toml"] false [] (listingOfFiles [("a.rs", "let x = 1"), ("b.toml", "k = 2")]) =
      .ok (strJoin [tagBlock "a.rs" "let x = 1", tagBlock "b.toml" "k = 2"] ++ footer, []) :=
  claim3 "\\" ["rs", "toml"] [] [("a.rs", "let x = 1"), ("b.toml", "k = 2")] (by decide)

/-- The filter the claim describes, following its words: true iff the
entry is a regular file and its decoded extension is in the allow-list. -/
def is_includable_spec (isRegularFile : Bool) (n : OsName) (valid : List String) : Bool :=
  isRegularFile &&
    (match OsName.extensionToStr n with
     | some ext => valid.contains ext
     | none => false)

/-- Counterexample to claim C4 as stated: `is_human_readable` never
inspects the file kind, so on a path naming a directory called `d.rs`
it returns true, while the claimed filter (true iff regular file with
allowed extension) returns false there. -/
theorem claim4_counterexample :
    is_human_readable (.utf8 "d.rs") ["rs"] = true ∧
    is_includable_spec false (.utf8 "d.rs") ["rs"] = false :=
  ⟨by decide, by decide⟩

/-- Claim C4 as amended: `is_human_readable` alone returns true iff the
extension decodes and is a member of the allow-list (exact and
case-sensitive; no extension or a non-decodable extension gives false);
the regular-file requirement is imposed by its call sites, whose combined
test `is_file && is_human_readable` satisfies the claimed equivalence. -/
theorem claim4_amended (isFile : Bool) (n : OsName) (valid : List String) :
    (effectiveFilter isFile n valid = true ↔
      isFile = true ∧ ∃ ext, OsName.extensionToStr n = some ext ∧ valid.contains ext = true) ∧
    (OsName.extensionToStr n = none → is_human_readable n valid = false) := by
  constructor
  · cases hx : OsName.extensionToStr n with
    | none => simp [effectiveFilter, is_human_readable, hx]
    | some e => simp [effectiveFilter, is_human_readable, hx]
  · intro hnone
    simp [is_human_readable, hnone]

/-- Witness for the amended claim C4: a regular `main.rs` file passes the
effective filter and yields the `rs` extension; an extensionless `README`
is rejected by the filter alone. -/
theorem claim4_amended_witness :
    ((true : Bool) = true ∧
      ∃ ext, OsName.extensionToStr (.utf8 "main.rs") = some ext ∧ List.contains ["rs"] ext = true) ∧
    is_human_readable (.utf8 "README") ["rs"] = false :=
  ⟨(claim4_amended true (.utf8 "main.rs") ["rs"]).1.mp (by decide),
   (claim4_amended true (.utf8 "README") ["rs"]).2 (by decide)⟩

/-- The recursive walk errors exactly when it meets a listing failure
along a traversed (non-skipped) path. -/
theorem walkListing_isErr (sep : String) (valid ignored : List String) :
    ∀ (l : Listing) (pre : List OsName) (s : WalkState),
      isErr (walkListing sep valid ignored pre l s) = listingFail ignored l
  | .fail _, _, _ => by simp [walkListing, listingFail, isErr]
  | .nil, _, _ => by simp [walkListing, listingFail, isErr]
  | .consFile n c rest, pre, s => by
    simp only [walkListing, listingFail]
    exact walkListing_isErr sep valid ignored rest pre _
  | .consDir n sub rest, pre, s => by
    by_cases h : skipDir ignored n = true
    · simp only [walkListing, listingFail, h, if_true, Bool.false_or]
      exact walkListing_isErr sep valid ignored rest pre s
    · have hb : skipDir ignored n = false := by
        cases hv : skipDir ignored n
        · rfl
        · exact absurd hv h
      have hsubEq := walkListing_isErr sep valid ignored sub (pre ++ [n]) s
      simp only [walkListing, listingFail, hb, if_false, Bool.false_eq_true]
      cases hsub : walkListing sep valid ignored (pre ++ [n]) sub s with
      | error m =>
        rw [hsub] at hsubEq
        simp only [isErr] at hsubEq
        simp [isErr, ← hsubEq]
      | ok s2 =>
        rw [hsub] at hsubEq
        simp only [isErr] at hsubEq
        simp [← hsubEq, walkListing_isErr sep valid ignored rest pre s2]
  | .consOther n rest, pre, s => by
    simp only [walkListing, listingFail]
    exact walkListing_isErr sep valid ignored rest pre s

/-- The non-recursive loop errors exactly when its listing ends in a
failure. -/
theorem nonRecursiveLoop_isErr (sep : String) (valid : List String) :
    ∀ (l : Listing) (s : WalkState),
      isErr (nonRecursiveLoop sep valid l s) = nonRecursiveFail l
  | .fail _, _ => by simp [nonRecursiveLoop, nonRecursiveFail, isErr]
  | .nil, _ => by simp [nonRecursiveLoop, nonRecursiveFail, isErr]
  | .consFile n c rest, s => by
    simp only [nonRecursiveLoop, nonRecursiveFail]
    exact nonRecursiveLoop_isErr sep valid rest _
  | .consDir n sub rest, s => by
    simp only [nonRecursiveLoop, nonRecursiveFail]
    exact nonRecursiveLoop_isErr sep valid rest s
  | .consOther n rest, s => by
    simp only [nonRecursiveLoop, nonRecursiveFail]
    exact nonRecursiveLoop_isErr sep valid rest s

/-- Claim C5: a matching file whose read fails contributes exactly one
stderr warning naming its path and nothing to the output, and the walk
continues after it unchanged; by contrast the whole serialization (in
either mode) returns an error precisely when a directory-listing failure
is met on the root or partway through the traversal. -/
theorem claim5 :
    (∀ (sep : String) (valid ignored : List String) (pre : List OsName)
        (n : OsName) (msg : String) (rest : Listing) (s : WalkState),
      is_human_readable n valid = true →
      (relStr sep pre n).isSome = true →
      walkListing sep valid ignored pre (.consFile n (.error msg) rest) s =
        walkListing sep valid ignored pre rest ⟨s.out, s.warn ++ [(pre ++ [n], msg)]⟩) ∧
    (∀ (sep : String) (valid ignored : List String) (root : Listing),
      isErr (write_folder_tags sep valid true ignored root) = listingFail ignored root) ∧
    (∀ (sep : String) (valid ignored : List String) (root : Listing),
      isErr (write_folder_tags sep valid false ignored root) = nonRecursiveFail root) := by
  refine ⟨?_, ?_, ?_⟩
  · intro sep valid ignored pre n msg rest s hm hrel
    obtain ⟨rs, hrs⟩ := Option.isSome_iff_exists.mp hrel
    simp [walkListing, fileStep, hm, hrs]
  · intro sep valid ignored root
    simp only [write_folder_tags, if_true]
    cases hw : walkListing sep valid ignored [] root ⟨"", []⟩ with
    | error m =>
      have := walkListing_isErr sep valid ignored root [] ⟨"", []⟩
      rw [hw] at this
      simpa [isErr] using this
    | ok s2 =>
      have := walkListing_isErr sep valid ignored root [] ⟨"", []⟩
      rw [hw] at this
      simpa [isErr] using this
  · intro sep valid ignored root
    simp only [write_folder_tags, if_false, Bool.false_eq_true]
    cases hw : nonRecursiveLoop sep valid root ⟨"", []⟩ with
    | error m =>
      have := nonRecursiveLoop_isErr sep valid root ⟨"", []⟩
      rw [hw] at this
      simpa [isErr] using this
    | ok s2 =>
      have := nonRecursiveLoop_isErr sep valid root ⟨"", []⟩
      rw [hw] at this
      simpa [isErr] using this

/-- Witness for claim C5: a concrete unreadable `a.rs` is warned about
and skipped while the walk goes on, and a concrete failing root listing
makes both serialization modes return an error. -/
theorem claim5_witness :
    walkListing "\\" ["rs"] [] [] (.consFile (.utf8 "a.rs") (.error "denied") .nil) ⟨"", []⟩ =
      walkListing "\\" ["rs"] [] [] .nil ⟨"", [([OsName.utf8 "a.rs"], "denied")]⟩ ∧
    isErr (write_folder_tags "\\" ["rs"] true [] (.fail "boom")) = listingFail [] (.fail "boom") ∧
    isErr (write_folder_tags "\\" ["rs"] false [] (.fail "boom")) = nonRecursiveFail (.fail "boom") :=
  ⟨claim5.1 "\\" ["rs"] [] [] (.utf8 "a.rs") "denied" .nil ⟨"", []⟩ (by decide) (by decide),
   claim5.2.1 "\\" ["rs"] [] (.fail "boom"),
   claim5.2.2 "\\" ["rs"] [] (.fail "boom")⟩

/-- Claim C6: when the backing file exists but does not deserialize
(text that is not JSON, or JSON of the wrong shape), both load
operations return the empty list without error and leave the file alone;
when the backing file does not exist, both return their hard-coded
default list with the file state produced by the corresponding save. -/
theorem claim6 :
    (∀ raw, get_filetypes (some (.notJson raw)) = ([], some (.notJson raw))) ∧
    (∀ v, decodeGroups v = none → (get_filetypes (some (.json v))).1 = []) ∧
    get_filetypes none = (defaultFiletypes, save_filetypes defaultFiletypes) ∧
    (∀ raw, get_presets (some (.notJson raw)) = ([], some (.notJson raw))) ∧
    (∀ v, decodePresets v = none → (get_presets (some (.json v))).1 = []) ∧
    get_presets none = (defaultPresets, save_presets defaultPresets) :=
  ⟨fun _ => rfl,
   fun v h => by simp [get_filetypes, h],
   rfl,
   fun _ => rfl,
   fun v h => by simp [get_presets, h],
   rfl⟩

/-- Witness for claim C6 at concrete file states. -/
theorem claim6_witness :
    get_filetypes (some (.notJson "not json")) = ([], some (.notJson "not json")) ∧
    (get_filetypes (some (.json .null))).1 = [] ∧
    get_filetypes none = (defaultFiletypes, save_filetypes defaultFiletypes) ∧
    get_presets (some (.notJson "not json")) = ([], some (.notJson "not json")) ∧
    (get_presets (some (.json .null))).1 = [] ∧
    get_presets none = (defaultPresets, save_presets defaultPresets) :=
  ⟨claim6.1 "not json", claim6.2.1 .null rfl, claim6.2.2.1,
   claim6.2.2.2.1 "not json", claim6.2.2.2.2.1 .null rfl, claim6.2.2.2.2.2⟩

/-- Claim C7: invoked with a path argument naming a location that does
not exist, the process exits with status 1 (non-zero) and
`tags_output.txt` is neither created nor modified, whatever the
serializer or the append step would have done. -/
theorem claim7 (wft : Except String (String × List (List OsName × String)))
    (app : Except String Unit) :
    (mainPathBranch false wft app).exitCode = 1 ∧
    (mainPathBranch false wft app).artifactTouched = false :=
  ⟨rfl, rfl⟩

/-- Decoding an encoded list of strings gives back the list. -/
theorem decodeStrList_encode (l : List String) :
    decodeStrList (.arr (l.map JsonVal.str)) = some l := by
  induction l with
  | nil => rfl
  | cons x xs ih =>
    simp only [decodeStrList, List.map_cons, mapOpt] at *
    simp [decodeStr, ih]

/-- Decoding an encoded file-type group gives back the group. -/
theorem decodeGroup_encode (g : FileTypeGroup) :
    decodeGroup (encodeGroup g) = some g := by
  simp [decodeGroup, encodeGroup, lookupField, List.find?, decodeStr, decodeStrList_encode]

/-- Decoding an encoded list of file-type groups gives back the list. -/
theorem decodeGroups_encode (l : List FileTypeGroup) :
    decodeGroups (encodeGroups l) = some l := by
  induction l with
  | nil => rfl
  | cons g gs ih =>
    simp only [decodeGroups, encodeGroups, List.map_cons, mapOpt] at *
    simp [decodeGroup_encode, ih]

/-- Decoding an encoded preset gives back the preset. -/
theorem decodePreset_encode (p : PresetCommand) :
    decodePreset (encodePreset p) = some p := by
  simp [decodePreset, encodePreset, lookupField, List.find?, decodeStr]

/-- Decoding an encoded list of presets gives back the list. -/
theorem decodePresets_encode (l : List PresetCommand) :
    decodePresets (encodePresets l) = some l := by
  induction l with
  | nil => rfl
  | cons p ps ih =>
    simp only [decodePresets, encodePresets, List.map_cons, mapOpt] at *
    simp [decodePreset_encode, ih]

/-- Claim C8: for either store, loading a well-formed existing backing
file and saving the result writes a file that loads back to the same
list — the same name/extensions (or name/text) pairs in the same order. -/
theorem claim8 :
    (∀ (v : JsonVal) (l : List FileTypeGroup), decodeGroups v = some l →
      (get_filetypes (some (.json v))).1 = l ∧
      (get_filetypes (save_filetypes l)).1 = l) ∧
    (∀ (v : JsonVal) (l : List PresetCommand), decodePresets v = some l →
      (get_presets (some (.json v))).1 = l ∧
      (get_presets (save_presets l)).1 = l) := by
  constructor
  · intro v l h
    exact ⟨by simp [get_filetypes, h],
           by simp [get_filetypes, save_filetypes, decodeGroups_encode]⟩
  · intro v l h
    exact ⟨by simp [get_presets, h],
           by simp [get_presets, save_presets, decodePresets_encode]⟩

/-- Witness for claim C8 at concrete well-formed backing files. -/
theorem claim8_witness :
    (get_filetypes (some (.json (encodeGroups [⟨"Rust", ["rs"]⟩])))).1 = [⟨"Rust", ["rs"]⟩] ∧
    (get_filetypes (save_filetypes [⟨"Rust", ["rs"]⟩])).1 = [⟨"Rust", ["rs"]⟩] ∧
    (get_presets (some (.json (encodePresets [⟨"Create Readme", "update the readme"⟩])))).1 =
      [⟨"Create Readme", "update the readme"⟩] ∧
    (get_presets (save_presets [⟨"Create Readme", "update the readme"⟩])).1 =
      [⟨"Create Readme", "update the readme"⟩] :=
  ⟨(claim8.1 (encodeGroups [⟨"Rust", ["rs"]⟩]) [⟨"Rust", ["rs"]⟩] (by rfl)).1,
   (claim8.1 (encodeGroups [⟨"Rust", ["rs"]⟩]) [⟨"Rust", ["rs"]⟩] (by rfl)).2,
   (claim8.2 (encodePresets [⟨"Create Readme", "update the readme"⟩])
     [⟨"Create Readme", "update the readme"⟩] (by rfl)).1,
   (claim8.2 (encodePresets [⟨"Create Readme", "update the readme"⟩])
     [⟨"Create Readme", "update the readme"⟩] (by rfl)).2⟩

/-- Claim C9: the append operation is not idempotent — two calls with the
same inputs append the labelled block twice, and on a concrete artifact
the twice-appended file carries two `[Additional Commands]` section
labels where a single call leaves one; nothing is deduplicated or
merged. -/
theorem claim9 :
    (∀ c a, append_additional_commands (append_additional_commands c a) a =
      c ++ acBlock a ++ acBlock a) ∧
    sectionCount
      (append_additional_commands
        (append_additional_commands "<a.rs>\nx\n</a.rs>\n" "review the code") "review the code") = 2 ∧
    sectionCount (append_additional_commands "<a.rs>\nx\n</a.rs>\n" "review the code") = 1 :=
  ⟨fun c a => by simp only [append_additional_commands, acBlock, String.append_assoc],
   by decide, by decide⟩

/-- Claim C10: a file that passes the extension filter but whose
root-relative path does not decode to UTF-8 is omitted silently — the
walk continues with the output, the warning list and the success of the
run all exactly as if the file were absent. -/
theorem claim10 (sep : String) (valid ignored : List String) (pre : List OsName)
    (n : OsName) (c : Except String String) (rest : Listing) (s : WalkState)
    (hmatch : is_human_readable n valid = true)
    (hrel : relStr sep pre n = none) :
    walkListing sep valid ignored pre (.consFile n c rest) s =
      walkListing sep valid ignored pre rest s := by
  simp [walkListing, fileStep, hmatch, hrel]

/-- Witness for claim C10: a file whose name bytes do not decode but
whose extension bytes decode to the allow-listed `rs` is skipped with no
trace. -/
theorem claim10_witness :
    walkListing "\\" ["rs"] [] [] (.consFile (.raw (some "rs") false) (.ok "x") .nil) ⟨"", []⟩ =
      walkListing "\\" ["rs"] [] [] .nil ⟨"", []⟩ :=
  claim10 "\\" ["rs"] [] [] (.raw (some "rs") false) (.ok "x") .nil ⟨"", []⟩ (by decide) (by decide)

/-- Witness for claim C7 at concrete serializer and append results. -/
theorem claim7_witness :
    (mainPathBranch false (.ok ("", [])) (.ok ())).exitCode = 1 ∧
    (mainPathBranch false (.ok ("", [])) (.ok ())).artifactTouched = false :=
  claim7 (.ok ("", [])) (.ok ())

/-- Witness for claim C9 at a concrete artifact and command text. -/
theorem claim9_witness :
    append_additional_commands (append_additional_commands "tags" "review") "review" =
      "tags" ++ acBlock "review" ++ acBlock "review" :=
  claim9.1 "tags" "review"
